import Mathlib

/-!
Shallow embedding of the `radiusxyz/cipher` repository (RSA Wesolowski VDF,
class-group VDF helpers, and the Poseidon cipher) and verification of the
frozen claims about it.

Conventions:
* Rust `BigInt` values that are non-negative throughout (moduli, delays,
  challenges, group elements) are embedded as `Nat`; `mod_mul a b n` is
  `a * b % n`, `mod_pow a e n` is `a ^ e % n`.
* Code that lives outside `src/` (the `utilities` module of `rsa_vdf`, the
  `classgroup` crate, the dusk field/permutation crates) is either taken as
  a parameter of the embedded function or modelled from the spec; each such
  definition says so in its doc comment.
-/

namespace RsaVdf

/-- Embeds `SetupForVDF` from `rsa_vdf/src/lib.rs`: delay `t`, modulus `n`,
Euler totient `pi_n`, and the trapdoor factors `p`, `q`. -/
structure SetupForVDF where
  t : Nat
  n : Nat
  pi_n : Nat
  p : Nat
  q : Nat
deriving DecidableEq, Repr

/-- Embeds `UnsolvedVDF`: challenge `x` together with a setup. -/
structure UnsolvedVDF where
  x : Nat
  setup : SetupForVDF
deriving DecidableEq, Repr

/-- Embeds `SolvedVDF`: the instance it was solved for, output `y`, proof `pi`. -/
structure SolvedVDF where
  vdf_instance : UnsolvedVDF
  y : Nat
  pi : Nat
deriving DecidableEq, Repr

/-- Modelled from the spec: `ErrorReason` lives in the missing `utilities`
module; the verifier in `src/` constructs exactly the two variants
`MisMatchedVDF` and `VDFVerifyError`. -/
inductive ErrorReason where
  | MisMatchedVDF
  | VDFVerifyError
deriving DecidableEq, Repr

/-- Embeds `SetupForVDF::public_setup2` (without sampling): builds the
unsolved instance from challenge `x`, delay `t` and factors `p`, `q`,
with `n = p*q` and `pi_n = (p-1)*(q-1)`. -/
def public_setup2 (x t p q : Nat) : UnsolvedVDF :=
  { x := x
    setup :=
      { t := t
        n := p * q
        pi_n := (p - 1) * (q - 1)
        p := p
        q := q } }

/-- Embeds `UnsolvedVDF::cal_y`.  The first loop of the source doubles
`loop_count` `t` times starting from 1, i.e. `loop_count = 2^t`; the second
loop starts from `y = g` and performs `loop_count` iterations of
`y = mod_mul(y, g, n)` (multiplication by `g`, not squaring — the squaring
loop in the source is commented out).  `hg` is the hash-to-group `h_g` from
the missing `utilities` module. -/
def cal_y (hg : Nat → Nat → Nat) (u : UnsolvedVDF) : Nat :=
  let n := u.setup.n
  let g := hg n u.x
  (fun y => y * g % n)^[2 ^ u.setup.t] g

/-- The first loop of `UnsolvedVDF::cal_y_with_trapdoor`: `t` iterations of
`loop_count = mod_mul(loop_count, 2, pi_n)` starting from 1. -/
def trapdoorLoopCount (t pin : Nat) : Nat :=
  (fun c => c * 2 % pin)^[t] 1

/-- Embeds `UnsolvedVDF::cal_y_with_trapdoor`: the exponent loop counter is
reduced mod `pi_n`, then `y` is built by that many multiplications by `g`
starting from `g`. -/
def cal_y_with_trapdoor (hg : Nat → Nat → Nat) (u : UnsolvedVDF) : Nat :=
  let n := u.setup.n
  let g := hg n u.x
  (fun y => y * g % n)^[trapdoorLoopCount u.setup.t u.setup.pi_n] g

/-- One iteration of the long-division proof loop of `UnsolvedVDF::eval`
(algorithm 4 of the Wesolowski paper): state is `(r, pi)`. -/
def evalStep (g n l : Nat) (rp : Nat × Nat) : Nat × Nat :=
  let r2 := rp.1 * 2
  let b := r2 / l
  let r := r2 % l
  let pi := (rp.2 * rp.2 % n) * (g ^ b % n) % n
  (r, pi)

/-- Embeds `UnsolvedVDF::eval`: computes `y` via `cal_y`, derives the prime
`l` via `hash_to_prime` (parameter `htp`, from the missing `utilities`
module) and runs the long-division loop `t` times from `(r, pi) = (1, 1)`. -/
def eval (hg : Nat → Nat → Nat) (htp : SetupForVDF → Nat → Nat → Nat)
    (u : UnsolvedVDF) : SolvedVDF :=
  let n := u.setup.n
  let g := hg n u.x
  let y := cal_y hg u
  let l := htp u.setup g y
  let rp := (evalStep g n l)^[u.setup.t] (1, 1)
  { vdf_instance := u, y := y, pi := rp.2 }

/-- Embeds `SolvedVDF::verify`: instance equality check, range check on
`y` and `pi`, then the algebraic check `pi^l * g^r == y` with
`r = 2^t mod l`. -/
def verify (hg : Nat → Nat → Nat) (htp : SetupForVDF → Nat → Nat → Nat)
    (s : SolvedVDF) (u : UnsolvedVDF) : Except ErrorReason Unit :=
  if s.vdf_instance ≠ u then .error .MisMatchedVDF
  else
    let n := s.vdf_instance.setup.n
    let g := hg s.vdf_instance.setup.n s.vdf_instance.x
    if n ≤ s.y ∨ n ≤ s.pi then .error .VDFVerifyError
    else
      let l := htp s.vdf_instance.setup g s.y
      let r := 2 ^ s.vdf_instance.setup.t % l
      let pi_l := s.pi ^ l % n
      let g_r := g ^ r % n
      if pi_l * g_r % n = s.y then .ok () else .error .VDFVerifyError

/-- Modelled from the spec: `h_g` (missing `utilities` module) derives a
reduced group element deterministically from the modulus and the seed `x`;
modelled as the canonical reduction of the seed into the group. -/
def h_g (n x : Nat) : Nat := x % n

/-- Trial-division primality check used by the modelled hash-to-prime. -/
def isPrime (n : Nat) : Bool :=
  decide (2 ≤ n) && (List.range n).all fun d => decide (d < 2) || decide (n % d ≠ 0)

/-- Bounded search for the first prime at or after `c`. -/
def primeSearch : Nat → Nat → Nat
  | 0, c => c
  | fuel + 1, c => if isPrime c then c else primeSearch fuel (c + 1)

/-- Modelled from the spec: `hash_to_prime` (missing `utilities` module)
deterministically derives a prime challenge from the serialized elements
`(g, y)`, retrying candidates until a prime is found; modelled as the first
prime at or after `2*(g+y)+3`. -/
def hash_to_prime (_s : SetupForVDF) (g y : Nat) : Nat :=
  primeSearch (2 * (g + y) + 4) (2 * (g + y) + 3)

/-- Spec-side definition, following the spec text for claim C2:
`t` sequential squarings of the (already reduced) base element `g`
modulo `n`, i.e. `g^(2^t) mod n`. -/
def specSequentialSquarings (n g t : Nat) : Nat :=
  (fun y => y * y % n)^[t] g

/-- `k ≥ 1` iterations of `y ↦ y * g % n` starting from `g` compute
`g^(k+1) % n`: the multiplication loop shared by `cal_y` and
`cal_y_with_trapdoor`. -/
lemma mulIter_eq_pow (g n k : Nat) (hk : 1 ≤ k) :
    (fun y => y * g % n)^[k] g = g ^ (k + 1) % n := by
  induction k with
  | zero => exact absurd hk (by simp)
  | succ m ih =>
    rcases Nat.eq_zero_or_pos m with hm | hm
    · subst hm
      simp [pow_succ, pow_one]
    · rw [Function.iterate_succ_apply', ih hm, Nat.mod_mul_mod, ← pow_succ]

/-- For `t ≥ 1` the trapdoor exponent loop computes `2^t mod pi_n`. -/
lemma trapdoorLoopCount_eq (t pin : Nat) (ht : 1 ≤ t) :
    trapdoorLoopCount t pin = 2 ^ t % pin := by
  induction t with
  | zero => exact absurd ht (by simp)
  | succ m ih =>
    rcases Nat.eq_zero_or_pos m with hm | hm
    · subst hm
      simp [trapdoorLoopCount]
    · unfold trapdoorLoopCount at ih ⊢
      rw [Function.iterate_succ_apply', ih hm, Nat.mod_mul_mod, ← pow_succ]

/-- Fermat: for a prime `p`, exponents that agree mod `p - 1` (and are both
positive, so that the `p ∣ g` case degenerates to `0 ≡ 0`) give congruent
powers mod `p`; ordered version. -/
lemma pow_congr_aux (p g e e' : Nat) (hp : p.Prime) (he' : 1 ≤ e') (hle : e' ≤ e)
    (h : e ≡ e' [MOD p - 1]) : g ^ e ≡ g ^ e' [MOD p] := by
  by_cases hdvd : p ∣ g
  · have h1 : g ^ e ≡ 0 [MOD p] :=
      (Nat.modEq_zero_iff_dvd).mpr (dvd_pow hdvd (by omega))
    have h2 : g ^ e' ≡ 0 [MOD p] :=
      (Nat.modEq_zero_iff_dvd).mpr (dvd_pow hdvd (by omega))
    exact h1.trans h2.symm
  · have hco : Nat.Coprime g p :=
      ((Nat.Prime.coprime_iff_not_dvd hp).mpr hdvd).symm
    obtain ⟨k, hk⟩ : (p - 1) ∣ (e - e') := (Nat.modEq_iff_dvd' hle).mp h.symm
    have heq : e = e' + (p - 1) * k := by omega
    have euler : g ^ (p - 1) ≡ 1 [MOD p] := by
      have := Nat.ModEq.pow_totient hco
      rwa [Nat.totient_prime hp] at this
    calc g ^ e = g ^ e' * (g ^ (p - 1)) ^ k := by rw [heq, pow_add, pow_mul]
    _ ≡ g ^ e' * 1 ^ k [MOD p] := (Nat.ModEq.refl _).mul (euler.pow k)
    _ = g ^ e' := by rw [one_pow, mul_one]

/-- Fermat congruence for positive exponents agreeing mod `p - 1`,
both directions. -/
lemma pow_congr (p g e e' : Nat) (hp : p.Prime) (he : 1 ≤ e) (he' : 1 ≤ e')
    (h : e ≡ e' [MOD p - 1]) : g ^ e ≡ g ^ e' [MOD p] := by
  rcases le_total e' e with hle | hle
  · exact pow_congr_aux p g e e' hp he' hle h
  · exact (pow_congr_aux p g e' e hp he hle h.symm).symm

/-- For distinct primes `p ≠ q`, positive exponents agreeing modulo
`(p-1)*(q-1)` give the same power of any base modulo `p*q` (CRT + Fermat). -/
lemma pow_mod_eq_of_exp_modEq (p q g e e' : Nat) (hp : p.Prime) (hq : q.Prime)
    (hpq : p ≠ q) (he : 1 ≤ e) (he' : 1 ≤ e')
    (h : e ≡ e' [MOD (p - 1) * (q - 1)]) : g ^ e % (p * q) = g ^ e' % (p * q) := by
  have hcop : Nat.Coprime p q := (Nat.coprime_primes hp hq).mpr hpq
  have hmp : e ≡ e' [MOD p - 1] := Nat.ModEq.of_dvd ⟨q - 1, rfl⟩ h
  have hmq : e ≡ e' [MOD q - 1] := Nat.ModEq.of_dvd ⟨p - 1, by ring⟩ h
  exact (Nat.modEq_and_modEq_iff_modEq_mul hcop).mp
    ⟨pow_congr p g e e' hp he he' hmp, pow_congr q g e e' hq he he' hmq⟩

/-- Claim C3: for every challenge `x`, delay `t` and distinct primes `p`, `q`
(with `n = p*q`, `pi_n = (p-1)*(q-1)` as built by `public_setup2`), and for
every hash-to-group function returning a reduced element, the trapdoor
evaluation path `cal_y_with_trapdoor` and the full path `cal_y` produce the
identical output. -/
theorem trapdoor_equivalence (hg : Nat → Nat → Nat) (x t p q : Nat)
    (hp : p.Prime) (hq : q.Prime) (hpq : p ≠ q)
    (hgred : hg (p * q) x < p * q) :
    cal_y_with_trapdoor hg (public_setup2 x t p q) =
      cal_y hg (public_setup2 x t p q) := by
  have hone : (1 : Nat) ≤ 2 ^ t := Nat.one_le_two_pow
  have hcal : cal_y hg (public_setup2 x t p q) =
      hg (p * q) x ^ (2 ^ t + 1) % (p * q) :=
    mulIter_eq_pow (hg (p * q) x) (p * q) (2 ^ t) hone
  rcases Nat.eq_zero_or_pos t with ht | ht
  · subst ht
    rfl
  · have hlc : trapdoorLoopCount t ((p - 1) * (q - 1)) =
        2 ^ t % ((p - 1) * (q - 1)) := trapdoorLoopCount_eq t _ ht
    have htrap : cal_y_with_trapdoor hg (public_setup2 x t p q) =
        (fun y => y * hg (p * q) x % (p * q))^[2 ^ t % ((p - 1) * (q - 1))]
          (hg (p * q) x) := by
      show (fun y => y * hg (p * q) x % (p * q))^[trapdoorLoopCount t ((p - 1) * (q - 1))]
          (hg (p * q) x) = _
      rw [hlc]
    rcases Nat.eq_zero_or_pos (2 ^ t % ((p - 1) * (q - 1))) with hz | hz
    · have hmod : (0 + 1 : Nat) ≡ 2 ^ t + 1 [MOD (p - 1) * (q - 1)] :=
        (((Nat.modEq_zero_iff_dvd).mpr (Nat.dvd_of_mod_eq_zero hz)).symm).add_right 1
      have hkey := pow_mod_eq_of_exp_modEq p q (hg (p * q) x) (0 + 1) (2 ^ t + 1)
        hp hq hpq (by omega) (by omega) hmod
      rw [htrap, hz, hcal, Function.iterate_zero_apply, ← hkey, zero_add, pow_one,
        Nat.mod_eq_of_lt hgred]
    · have hmod : 2 ^ t % ((p - 1) * (q - 1)) + 1 ≡ 2 ^ t + 1 [MOD (p - 1) * (q - 1)] :=
        (Nat.mod_modEq (2 ^ t) ((p - 1) * (q - 1))).add_right 1
      have hkey := pow_mod_eq_of_exp_modEq p q (hg (p * q) x)
        (2 ^ t % ((p - 1) * (q - 1)) + 1) (2 ^ t + 1) hp hq hpq (by omega) (by omega) hmod
      rw [htrap, mulIter_eq_pow _ _ _ hz, hcal, hkey]

/-- Claim C3 witness: the trapdoor equivalence at the concrete instance
`x = 2`, `t = 2`, `p = 3`, `q = 5` with the reduction hash-to-group. -/
theorem trapdoor_equivalence_witness :
    Nat.Prime 3 ∧ Nat.Prime 5 ∧ (3 : Nat) ≠ 5 ∧ (fun n x => x % n) (3 * 5) 2 < 3 * 5 ∧
      cal_y_with_trapdoor (fun n x => x % n) (public_setup2 2 2 3 5) =
        cal_y (fun n x => x % n) (public_setup2 2 2 3 5) :=
  ⟨by norm_num, by norm_num, by decide, by decide,
    trapdoor_equivalence (fun n x => x % n) 2 2 3 5 (by norm_num) (by norm_num)
      (by decide) (by decide)⟩

/-- Claim C1 (code bug evaluation): at the concrete valid instance
`x = 2`, `t = 1`, `p = 3`, `q = 5` (`n = 15`), with the modelled `h_g` and
`hash_to_prime`, verifying the solved instance produced by `eval` against
the very same unsolved instance is rejected with `VDFVerifyError` instead
of accepting: `cal_y` computes `g^(2^t+1) mod n` while the proof loop and
the verifier target `g^(2^t) mod n`. -/
theorem roundtrip_fails_at_concrete_instance :
    verify h_g hash_to_prime (eval h_g hash_to_prime (public_setup2 2 1 3 5))
      (public_setup2 2 1 3 5) = .error .VDFVerifyError := by
  rfl

/-- Claim C2 (code bug evaluation): at `x = 2`, `t = 1`, `n = 15`, `cal_y`
returns `8 = g^(2^t+1) mod n`, not the value `4 = g^(2^t) mod n` obtained by
`t` sequential squarings of `g = h_g(n, x)` that the claim states. -/
theorem cal_y_differs_from_sequential_squarings :
    cal_y h_g (public_setup2 2 1 3 5) = 8 ∧
      specSequentialSquarings 15 (h_g 15 2) 1 = 4 ∧
      cal_y h_g (public_setup2 2 1 3 5) ≠ specSequentialSquarings 15 (h_g 15 2) 1 := by
  refine ⟨rfl, rfl, by decide⟩

/-- Claim C4 (code bug evaluation): at the concrete instance with `t = 0`
(`x = 2`, `p = 3`, `q = 5`), the evaluator does produce `pi = 1` but yields
`y = g^2 mod n = 4` instead of the base element `g = 2`, and verification
of the produced solved instance rejects instead of accepting. -/
theorem eval_at_t_zero_not_identity :
    (eval h_g hash_to_prime (public_setup2 2 0 3 5)).pi = 1 ∧
      (eval h_g hash_to_prime (public_setup2 2 0 3 5)).y ≠ h_g 15 2 ∧
      verify h_g hash_to_prime (eval h_g hash_to_prime (public_setup2 2 0 3 5))
        (public_setup2 2 0 3 5) = .error .VDFVerifyError :=
  ⟨rfl, by decide, rfl⟩

/-- Claim C5: whenever the solved instance's embedded `vdf_instance` differs
from the unsolved instance under verification — in challenge or in any setup
field — `verify` returns `MisMatchedVDF`, for every hash-to-group and
hash-to-prime function and regardless of `y` and `pi`. -/
theorem verify_mismatch (hg : Nat → Nat → Nat) (htp : SetupForVDF → Nat → Nat → Nat)
    (s : SolvedVDF) (u : UnsolvedVDF) (h : s.vdf_instance ≠ u) :
    verify hg htp s u = .error .MisMatchedVDF := by
  unfold verify
  rw [if_pos h]

/-- Claim C5 witness: a solved instance for challenge `2` checked against the
instance with challenge `3`. -/
theorem verify_mismatch_witness :
    (⟨public_setup2 2 1 3 5, 8, 1⟩ : SolvedVDF).vdf_instance ≠ public_setup2 3 1 3 5 ∧
      verify h_g hash_to_prime ⟨public_setup2 2 1 3 5, 8, 1⟩ (public_setup2 3 1 3 5) =
        .error .MisMatchedVDF :=
  ⟨by decide, verify_mismatch h_g hash_to_prime _ _ (by decide)⟩

/-- Claim C6 counterexample: the range-check rejection does not use an error
kind distinct from the algebraic one.  At `n = 15`, the solved instance with
`y = 15 ≥ n` is rejected with `VDFVerifyError`, the very same error value
produced for an in-range solved instance (`y = 5`, `pi = 1`) that fails only
the algebraic check `pi^l * g^r == y`. -/
theorem verify_range_error_not_distinct :
    verify h_g hash_to_prime ⟨public_setup2 2 1 3 5, 15, 1⟩ (public_setup2 2 1 3 5) =
        .error .VDFVerifyError ∧
      verify h_g hash_to_prime ⟨public_setup2 2 1 3 5, 5, 1⟩ (public_setup2 2 1 3 5) =
        .error .VDFVerifyError ∧
      (public_setup2 2 1 3 5).setup.n ≤ 15 ∧
      5 < (public_setup2 2 1 3 5).setup.n ∧ 1 < (public_setup2 2 1 3 5).setup.n :=
  ⟨rfl, rfl, by decide, by decide, by decide⟩

/-- Claim C6 (amended): when the embedded instance equals the unsolved
instance and `y ≥ n` or `pi ≥ n`, `verify` rejects before the algebraic
check — the result does not depend on the hash-to-prime function — but with
the same `VDFVerifyError` kind that algebraic failure produces, not with a
distinct out-of-range kind. -/
theorem verify_out_of_range (hg : Nat → Nat → Nat) (htp : SetupForVDF → Nat → Nat → Nat)
    (s : SolvedVDF) (u : UnsolvedVDF) (heq : s.vdf_instance = u)
    (hrange : u.setup.n ≤ s.y ∨ u.setup.n ≤ s.pi) :
    verify hg htp s u = .error .VDFVerifyError := by
  subst heq
  unfold verify
  rw [if_neg (fun hne => hne rfl), if_pos hrange]

/-- Claim C6 (amended) witness: concrete out-of-range solved instance
(`y = 20 ≥ n = 15`). -/
theorem verify_out_of_range_witness :
    (⟨public_setup2 9 1 3 5, 20, 1⟩ : SolvedVDF).vdf_instance = public_setup2 9 1 3 5 ∧
      (public_setup2 9 1 3 5).setup.n ≤ 20 ∧
      verify h_g hash_to_prime ⟨public_setup2 9 1 3 5, 20, 1⟩ (public_setup2 9 1 3 5) =
        .error .VDFVerifyError :=
  ⟨rfl, by decide,
    verify_out_of_range h_g hash_to_prime _ _ rfl (Or.inl (by decide))⟩

end RsaVdf

namespace Vdf

/-- Embeds `check_proof_of_time_wesolowski` from `vdf/src/proof_wesolowski.rs`.
The discriminant generator, the class-group construction and the algebraic
verifier live in the external `classgroup` crate and in `verify_proof`; they
are parameters here, since the length check rejects the blob before any of
them touches it.  Bytes are `Nat`s, `usize::MAX` is `2^64 - 1`, and the u16
`int_size_bits` is a `Nat`. -/
def check_proof_of_time_wesolowski {T G : Type}
    (createDiscriminant : List Nat → Nat → T)
    (fromAbDiscriminant : Nat → Nat → T → G)
    (fromBytes : List Nat → T → G)
    (verifyProof : G → G → G → Nat → Nat → Except Unit Unit)
    (challenge proofBlob : List Nat) (iterations intSizeBits : Nat) :
    Except Unit Unit :=
  let discriminant := createDiscriminant challenge intSizeBits
  let x := fromAbDiscriminant 2 1 discriminant
  if 2 ^ 64 - 1 - 16 < intSizeBits then .error ()
  else
    let intSize := (intSizeBits + 16) >>> 4
    if intSize * 4 ≠ proofBlob.length then .error ()
    else
      let resultBytes := proofBlob.take (2 * intSize)
      let proofBytes := proofBlob.drop (2 * intSize)
      let proof := fromBytes proofBytes discriminant
      let y := fromBytes resultBytes discriminant
      verifyProof x y proof iterations intSizeBits

/-- Claim C7: for every challenge, iteration count and proof blob whose
length is not exactly `4 * ((int_size_bits + 16) >> 4)` bytes,
`check_proof_of_time_wesolowski` returns `Err` — for every discriminant
generator, group constructor, deserializer and algebraic verifier, i.e.
before any group computation on the blob. -/
theorem check_proof_of_time_wesolowski_rejects_bad_length {T G : Type}
    (createDiscriminant : List Nat → Nat → T)
    (fromAbDiscriminant : Nat → Nat → T → G)
    (fromBytes : List Nat → T → G)
    (verifyProof : G → G → G → Nat → Nat → Except Unit Unit)
    (challenge proofBlob : List Nat) (iterations intSizeBits : Nat)
    (hlen : proofBlob.length ≠ 4 * ((intSizeBits + 16) >>> 4)) :
    check_proof_of_time_wesolowski createDiscriminant fromAbDiscriminant fromBytes
      verifyProof challenge proofBlob iterations intSizeBits = .error () := by
  unfold check_proof_of_time_wesolowski
  by_cases hbig : 2 ^ 64 - 1 - 16 < intSizeBits
  · rw [if_pos hbig]
  · rw [if_neg hbig, if_pos (by omega)]

/-- Claim C7 witness: the empty blob with `int_size_bits = 0` (expected
length `4`) is rejected. -/
theorem check_proof_of_time_wesolowski_rejects_bad_length_witness :
    ([] : List Nat).length ≠ 4 * ((0 + 16) >>> 4) ∧
      check_proof_of_time_wesolowski (fun _ _ => ()) (fun _ _ _ => ())
        (fun _ _ => ()) (fun _ _ _ _ _ => .ok ()) [] [] 0 0 = .error () :=
  ⟨by decide,
    check_proof_of_time_wesolowski_rejects_bad_length (fun _ _ => ()) (fun _ _ _ => ())
      (fun _ _ => ()) (fun _ _ _ _ _ => .ok ()) [] [] 0 0 (by decide)⟩

/-- Tail-recursive pass of `iterate_squarings` from `vdf/src/proof_of_time.rs`:
walks the sorted list of requested counts, applies `current - previous`
squarings to the running element and records `(count, element)`; the
`HashMap` is modelled as the association list with the newest binding in
front.  `square` stands for one squaring step of the external `ClassGroup`
implementation, so `repeated_square k` is `square^[k]`. -/
def iterSqAux {V : Type} (square : V → V) :
    V → Nat → List Nat → List (Nat × V) → List (Nat × V)
  | _, _, [], acc => acc
  | x, prev, c :: rest, acc =>
    let xNext := square^[c - prev] x
    iterSqAux square xNext c rest ((c, xNext) :: acc)

/-- Embeds `iterate_squarings`: collect the requested counts, sort them
ascending, then perform squarings incrementally between consecutive counts,
starting from the base element `x` at count `0`. -/
def iterate_squarings {V : Type} (square : V → V) (x : V)
    (powersToCalculate : List Nat) : List (Nat × V) :=
  iterSqAux square x 0 (powersToCalculate.insertionSort (· ≤ ·)) []

/-- Looking up a count that is not among the remaining requested counts
falls through to the accumulator. -/
lemma lookup_iterSqAux_not_mem {V : Type} (square : V → V)
    (l : List Nat) (x : V) (prev c : Nat) (acc : List (Nat × V)) (hc : c ∉ l) :
    List.lookup c (iterSqAux square x prev l acc) = List.lookup c acc := by
  induction l generalizing x prev acc with
  | nil => rfl
  | cons h rest ih =>
    have hch : c ≠ h := fun hch => hc (hch ▸ List.mem_cons_self h rest)
    have hcr : c ∉ rest := fun hcr => hc (List.mem_cons_of_mem h hcr)
    rw [iterSqAux, ih _ _ _ hcr]
    have hbeq : (c == h) = false := beq_eq_false_iff_ne.mpr hch
    simp [List.lookup_cons, hbeq]

/-- Looking up a requested count returns the element after exactly that many
squarings of the base, provided the remaining counts are sorted and bounded
below by the already performed count `prev`. -/
lemma lookup_iterSqAux_mem {V : Type} (square : V → V)
    (l : List Nat) (x0 : V) (prev c : Nat) (acc : List (Nat × V))
    (hsort : List.Sorted (· ≤ ·) l) (hlb : ∀ a ∈ l, prev ≤ a) (hc : c ∈ l) :
    List.lookup c (iterSqAux square (square^[prev] x0) prev l acc) =
      some (square^[c] x0) := by
  induction l generalizing prev acc with
  | nil => exact absurd hc (List.not_mem_nil c)
  | cons h rest ih =>
    have hph : prev ≤ h := hlb h (List.mem_cons_self h rest)
    have hx : square^[h - prev] (square^[prev] x0) = square^[h] x0 := by
      rw [← Function.iterate_add_apply, Nat.sub_add_cancel hph]
    rw [iterSqAux]
    simp only [hx]
    by_cases hcr : c ∈ rest
    · exact ih h ((h, square^[h] x0) :: acc) (List.sorted_cons.mp hsort).2
        (fun a ha => (List.sorted_cons.mp hsort).1 a ha) hcr
    · have hch : c = h := by
        rcases List.mem_cons.mp hc with hch | hch
        · exact hch
        · exact absurd hch hcr
      subst hch
      rw [lookup_iterSqAux_not_mem square rest _ _ _ _ hcr, List.lookup_cons]
      simp

/-- Claim C8: for every squaring function, base element and list of
requested iteration counts, the map built by `iterate_squarings` is defined
exactly on the requested counts, and its value at a requested count `c` is
the element obtained from the base by `c` successive squarings.  The counts
are processed in ascending order with only `current - previous` incremental
squarings between consecutive counts, as the definition of `iterSqAux`
shows. -/
theorem iterate_squarings_spec {V : Type} (square : V → V) (x : V)
    (powers : List Nat) (c : Nat) :
    List.lookup c (iterate_squarings square x powers) =
      if c ∈ powers then some (square^[c] x) else none := by
  by_cases hc : c ∈ powers
  · rw [if_pos hc]
    have hc' : c ∈ powers.insertionSort (· ≤ ·) :=
      (List.perm_insertionSort (· ≤ ·) powers).symm.subset hc
    have := lookup_iterSqAux_mem square (powers.insertionSort (· ≤ ·)) x 0 c []
      (List.sorted_insertionSort (· ≤ ·) powers) (fun a _ => Nat.zero_le a) hc'
    simpa [iterate_squarings] using this
  · rw [if_neg hc]
    have hc' : c ∉ powers.insertionSort (· ≤ ·) := fun hmem =>
      hc ((List.perm_insertionSort (· ≤ ·) powers).subset hmem)
    rw [iterate_squarings, lookup_iterSqAux_not_mem square _ _ _ _ _ hc']
    rfl

end Vdf

namespace Cipher

/-- Little-endian byte decomposition: `k` bytes of `v`, least significant
first — the layout of `BlsScalar::to_bytes` in the dusk field crate. -/
def leBytes : Nat → Nat → List Nat
  | 0, _ => []
  | k + 1, v => v % 256 :: leBytes k (v / 256)

/-- Little-endian byte recomposition, inverse direction of `leBytes`. -/
def leNum : List Nat → Nat
  | [] => 0
  | b :: rest => b + 256 * leNum rest

lemma leBytes_length (k v : Nat) : (leBytes k v).length = k := by
  induction k generalizing v with
  | zero => rfl
  | succ m ih => simp [leBytes, ih]

lemma leNum_leBytes (k v : Nat) (h : v < 256 ^ k) : leNum (leBytes k v) = v := by
  induction k generalizing v with
  | zero =>
    have : v = 0 := by simpa using h
    simp [this, leBytes, leNum]
  | succ m ih =>
    have hdiv : v / 256 < 256 ^ m := by
      rw [Nat.div_lt_iff_lt_mul (by norm_num : (0 : Nat) < 256)]
      calc v < 256 ^ (m + 1) := h
      _ = 256 ^ m * 256 := by rw [pow_succ]
    rw [leBytes, leNum, ih (v / 256) hdiv]
    omega

/-- The order of the BLS12-381 scalar field, the modulus of `BlsScalar`
(dusk-bls12_381). -/
def BLS_R : Nat :=
  52435875175126190479447740508185965837690552500527637822603658699938581184513

instance : NeZero BLS_R := ⟨by decide⟩

/-- `BlsScalar` is a canonical element of the scalar field `F_r`. -/
abbrev BlsScalar := ZMod BLS_R

/-- Embeds `BlsScalar::to_bytes`: the canonical representative in 32
little-endian bytes. -/
def scalar_to_bytes (s : BlsScalar) : List Nat := leBytes 32 s.val

/-- Embeds `BlsScalar::from_slice` / `from_bytes`: decode 32 little-endian
bytes and reject non-canonical values (`≥ r`). -/
def scalar_from_bytes (b : List Nat) : Option BlsScalar :=
  if leNum b < BLS_R then some ((leNum b : Nat) : BlsScalar) else none

lemma scalar_from_to_bytes (s : BlsScalar) :
    scalar_from_bytes (scalar_to_bytes s) = some s := by
  have hv : s.val < BLS_R := ZMod.val_lt s
  have h256 : BLS_R < 256 ^ 32 := by decide
  rw [scalar_to_bytes, scalar_from_bytes, leNum_leBytes 32 s.val (lt_trans hv h256),
    if_pos hv, ZMod.natCast_rightInverse s]

/-- Embeds `PoseidonCipher` from `cipher/src/cipher.rs`:
`CIPHER_SIZE = MESSAGE_CAPACITY + 1 = 3` scalars. -/
structure PoseidonCipher where
  cipher : Fin 3 → BlsScalar

/-- Embeds `PoseidonCipher::to_bytes`: the three scalars serialized
back-to-back, 32 bytes each. -/
def to_bytes (c : PoseidonCipher) : List Nat :=
  scalar_to_bytes (c.cipher 0) ++ (scalar_to_bytes (c.cipher 1) ++ scalar_to_bytes (c.cipher 2))

/-- Embeds `PoseidonCipher::from_bytes`: deserializes each 32-byte chunk in
turn, failing if any chunk is non-canonical. -/
def from_bytes (b : List Nat) : Option PoseidonCipher :=
  match scalar_from_bytes (b.take 32), scalar_from_bytes ((b.drop 32).take 32),
      scalar_from_bytes ((b.drop 64).take 32) with
  | some s0, some s1, some s2 =>
    some ⟨fun i => if i = 0 then s0 else if i = 1 then s1 else s2⟩
  | _, _, _ => none

/-- Claim C9: deserializing the serialization of a `PoseidonCipher`
round-trips exactly; in particular `from_bytes` never fails on the output
of `to_bytes`. -/
theorem from_bytes_to_bytes (c : PoseidonCipher) : from_bytes (to_bytes c) = some c := by
  have l0 : (scalar_to_bytes (c.cipher 0)).length = 32 := leBytes_length 32 _
  have l1 : (scalar_to_bytes (c.cipher 1)).length = 32 := leBytes_length 32 _
  have ht : (to_bytes c).take 32 = scalar_to_bytes (c.cipher 0) := by
    rw [to_bytes, ← l0, List.take_left]
  have hd : (to_bytes c).drop 32 =
      scalar_to_bytes (c.cipher 1) ++ scalar_to_bytes (c.cipher 2) := by
    rw [to_bytes, ← l0, List.drop_left]
  have hd1 : ((to_bytes c).drop 32).take 32 = scalar_to_bytes (c.cipher 1) := by
    rw [hd, ← l1, List.take_left]
  have l2 : (scalar_to_bytes (c.cipher 2)).length = 32 := leBytes_length 32 _
  have hd64 : (to_bytes c).drop 64 = scalar_to_bytes (c.cipher 2) := by
    have : (to_bytes c).drop 64 = ((to_bytes c).drop 32).drop 32 := by
      rw [List.drop_drop]
    rw [this, hd, ← l1, List.drop_left]
  have hd64t : ((to_bytes c).drop 64).take 32 = scalar_to_bytes (c.cipher 2) := by
    rw [hd64, ← l2, List.take_length]
  rw [from_bytes, ht, hd1, hd64t, scalar_from_to_bytes, scalar_from_to_bytes,
    scalar_from_to_bytes]
  refine congrArg some ?_
  cases c with
  | mk f =>
    congr 1
    funext i
    fin_cases i <;> simp

/-- Modelled from the code's usage of the missing `error.rs`: decryption
failure variant of the cipher crate's `Error`. -/
inductive Error where
  | CipherDecryptionFailed
deriving DecidableEq, Repr

/-- Embeds `PoseidonCipher::initial_state`: domain constant `2^32`,
`MESSAGE_CAPACITY = 2`, the two secret-key coordinates, and the nonce. -/
def initial_state (secret : BlsScalar × BlsScalar) (nonce : BlsScalar) :
    Fin 5 → BlsScalar :=
  fun i =>
    if i = 0 then (2 ^ 32 : BlsScalar)
    else if i = 1 then 2
    else if i = 2 then secret.1
    else if i = 3 then secret.2
    else nonce

/-- Embeds `PoseidonCipher::encrypt` with the Hades `ScalarStrategy`
permutation (external dusk-hades crate) as the parameter `perm`: permute the
initial state, add the (zero-padded) message into state slots 1 and 2 which
become the first two cipher scalars, permute again, and emit state slot 1 as
the third cipher scalar. -/
def encrypt (perm : (Fin 5 → BlsScalar) → Fin 5 → BlsScalar)
    (message : List BlsScalar) (secret : BlsScalar × BlsScalar)
    (nonce : BlsScalar) : PoseidonCipher :=
  let state0 := perm (initial_state secret nonce)
  let state1 := Function.update state0 1 (state0 1 + message.getD 0 0)
  let state2 := Function.update state1 2 (state1 2 + message.getD 1 0)
  let state3 := perm state2
  ⟨fun i => if i = 0 then state1 1 else if i = 1 then state2 2 else state3 1⟩

/-- Embeds `PoseidonCipher::decrypt`: recompute the permuted initial state,
subtract it from the first two cipher scalars to recover the message,
overwrite state slots 1 and 2 with the cipher scalars, permute, and compare
the third cipher scalar against state slot 1. -/
def decrypt (c : PoseidonCipher) (perm : (Fin 5 → BlsScalar) → Fin 5 → BlsScalar)
    (secret : BlsScalar × BlsScalar) (nonce : BlsScalar) :
    Except Error (Fin 2 → BlsScalar) :=
  let state0 := perm (initial_state secret nonce)
  let m0 := c.cipher 0 - state0 1
  let m1 := c.cipher 1 - state0 2
  let state1 := Function.update state0 1 (c.cipher 0)
  let state2 := Function.update state1 2 (c.cipher 1)
  let state3 := perm state2
  if c.cipher 2 ≠ state3 1 then .error .CipherDecryptionFailed
  else .ok fun i => if i = 0 then m0 else m1

/-- Claim C10: for every permutation, secret key, nonce and message of at
most `MESSAGE_CAPACITY = 2` scalars, decrypting the encryption with the
same secret and nonce succeeds and returns the message padded with zero
scalars to length 2. -/
theorem decrypt_encrypt (perm : (Fin 5 → BlsScalar) → Fin 5 → BlsScalar)
    (message : List BlsScalar) (secret : BlsScalar × BlsScalar) (nonce : BlsScalar)
    (_hlen : message.length ≤ 2) :
    decrypt (encrypt perm message secret nonce) perm secret nonce =
      Except.ok fun i => message.getD i.val 0 := by
  have h21 : (2 : Fin 5) ≠ 1 := by decide
  unfold encrypt decrypt
  simp [Function.update_apply, h21]
  funext i
  fin_cases i <;> rfl

/-- Claim C10 witness: the empty message (padded to two zero scalars) with
the identity permutation, zero secret and zero nonce. -/
theorem decrypt_encrypt_witness :
    ([] : List BlsScalar).length ≤ 2 ∧
      decrypt (encrypt id [] (0, 0) 0) id (0, 0) 0 =
        Except.ok fun i => ([] : List BlsScalar).getD i.val 0 :=
  ⟨by decide, decrypt_encrypt id [] (0, 0) 0 (by decide)⟩

end Cipher
